import Mathlib

/-
  Verification of the pitch-analysis / scoring core of the repository
  (app.py and analyze_music.py), shallowly embedded in Lean.

  Modelling conventions:
  - Python floats that carry times, MIDI data and audio samples are modelled
    as exact rationals; quantities that involve log2 / sqrt (frequencies,
    correlations) live in the reals.
  - The Python built-in round (banker's rounding, round-half-to-even) is
    modelled by pyRoundQ / pyRoundR below; round(x, n) is modelled by
    scaling by 10^n around it.
  - Optional values (None) are Option; a Python runtime error (TypeError)
    is an Except.error.
-/

/-! ### Python rounding (round-half-to-even), over rationals and over reals -/

/-- Python round(q) on a rational: nearest integer, ties to even. -/
def pyRoundQ (q : ℚ) : ℤ :=
  if q - ⌊q⌋ < 1/2 then ⌊q⌋
  else if (1:ℚ)/2 < q - ⌊q⌋ then ⌊q⌋ + 1
  else if Even ⌊q⌋ then ⌊q⌋ else ⌊q⌋ + 1

/-- Python round(q, 3): round to millisecond (3 decimal digits) precision. -/
def pyRound3 (q : ℚ) : ℚ := (pyRoundQ (q * 1000) : ℚ) / 1000

/-- Python round(x) on a real: nearest integer, ties to even. -/
noncomputable def pyRoundR (x : ℝ) : ℤ :=
  if x - ⌊x⌋ < 1/2 then ⌊x⌋
  else if (1:ℝ)/2 < x - ⌊x⌋ then ⌊x⌋ + 1
  else if Even ⌊x⌋ then ⌊x⌋ else ⌊x⌋ + 1

/-- Python round(x, 2): round a real to 2 decimal digits. -/
noncomputable def pyRound2R (x : ℝ) : ℝ := (pyRoundR (x * 100) : ℝ) / 100

lemma pyRoundR_intCast (n : ℤ) : pyRoundR (n : ℝ) = n := by
  unfold pyRoundR
  rw [Int.floor_intCast]
  norm_num

lemma pyRoundR_mem (x : ℝ) : pyRoundR x = ⌊x⌋ ∨ pyRoundR x = ⌊x⌋ + 1 := by
  unfold pyRoundR
  split_ifs <;> simp

lemma pyRoundR_nonneg {x : ℝ} (hx : 0 ≤ x) : 0 ≤ pyRoundR x := by
  have h0 : (0:ℤ) ≤ ⌊x⌋ := Int.floor_nonneg.mpr hx
  rcases pyRoundR_mem x with h | h <;> omega

lemma pyRoundR_up_half {x : ℝ} (h : pyRoundR x = ⌊x⌋ + 1) : 1/2 ≤ x - ⌊x⌋ := by
  unfold pyRoundR at h
  split_ifs at h with h2 h3 h4 <;> first | omega | linarith

lemma pyRoundR_le_of_le {x : ℝ} {n : ℤ} (hx : x ≤ n) : pyRoundR x ≤ n := by
  have h1 : ⌊x⌋ ≤ n := by
    have := Int.floor_le_floor (show x ≤ (n:ℝ) from hx)
    simpa using this
  rcases pyRoundR_mem x with h | h
  · omega
  · have hhalf := pyRoundR_up_half h
    have hfl := Int.floor_le x
    have hlt : (⌊x⌋ : ℝ) < (n : ℝ) := by linarith
    have : ⌊x⌋ < n := by exact_mod_cast hlt
    omega

lemma pyRoundR_mono {x y : ℝ} (hxy : x ≤ y) : pyRoundR x ≤ pyRoundR y := by
  rcases lt_or_eq_of_le (Int.floor_le_floor hxy : ⌊x⌋ ≤ ⌊y⌋) with hf | hf
  · -- different floors: pyRoundR x ≤ ⌊x⌋ + 1 ≤ ⌊y⌋ ≤ pyRoundR y
    have hx := pyRoundR_mem x
    have hy := pyRoundR_mem y
    rcases hx with h | h <;> rcases hy with h' | h' <;> omega
  · -- same floor, compare fractional parts
    unfold pyRoundR
    rw [hf]
    have hfr : x - ⌊y⌋ ≤ y - ⌊y⌋ := by
      have : (⌊x⌋:ℝ) = (⌊y⌋:ℝ) := by exact_mod_cast hf
      linarith
    split_ifs with a1 a2 a3 b1 b2 b3 <;> first | omega | linarith

/-! ### ScoreEngine: frequency_difference and calculate_score (app.py) -/

/-- frequency_difference from app.py: cents between two optional frequencies.
    Returns none when either argument is Python-falsy (None or 0.0) or
    non-positive; otherwise 1200 * log2(freq2 / freq1). -/
noncomputable def frequency_difference (freq1 freq2 : Option ℝ) : Option ℝ :=
  match freq1, freq2 with
  | none, _ => none
  | _, none => none
  | some a, some b =>
      if a = 0 ∨ b = 0 ∨ a ≤ 0 ∨ b ≤ 0 then none
      else some (1200 * Real.logb 2 (b / a))

/-- The piecewise karaoke score formula of calculate_score (app.py lines
    94-105), as a function of diff = abs(cents difference). -/
noncomputable def score_formula (diff : ℝ) : ℝ :=
  if diff ≤ 5 then 100 - diff * 0.5
  else if diff ≤ 10 then 97.5 - (diff - 5) * 0.5
  else if diff ≤ 20 then 95 - (diff - 10) * 1.0
  else if diff ≤ 30 then 85 - (diff - 20) * 1.5
  else if diff ≤ 50 then 70 - (diff - 30) * 1.0
  else max 0 (50 - (diff - 50) * 1.0)

/-- calculate_score from app.py. Python-falsy inputs (None or 0.0) yield the
    sentinel 0. Otherwise the code computes
    diff = abs(frequency_difference(user, target)); when
    frequency_difference returns None (a present but non-positive input),
    abs(None) raises a TypeError, modelled as Except.error. -/
noncomputable def calculate_score (user_pitch target_pitch : Option ℝ) :
    Except Unit ℤ :=
  match user_pitch, target_pitch with
  | none, _ => .ok 0
  | _, none => .ok 0
  | some u, some t =>
      if u = 0 ∨ t = 0 then .ok 0
      else
        match frequency_difference (some u) (some t) with
        | none => .error ()
        | some c => .ok (pyRoundR (score_formula |c|))

/-- The raw-score table exactly as written in the specification (section
    4.4), for comparison against the code's score_formula. -/
noncomputable def spec_raw_score (diff : ℝ) : ℝ :=
  if 0 ≤ diff ∧ diff ≤ 5 then 100 - diff * 0.5
  else if 5 < diff ∧ diff ≤ 10 then 97.5 - (diff - 5) * 0.5
  else if 10 < diff ∧ diff ≤ 20 then 95 - (diff - 10) * 1.0
  else if 20 < diff ∧ diff ≤ 30 then 85 - (diff - 20) * 1.5
  else if 30 < diff ∧ diff ≤ 50 then 70 - (diff - 30) * 1.0
  else if 50 < diff then max 0 (50 - (diff - 50) * 1.0)
  else 0

/-- The integer score produced for a pair of positive frequencies. -/
noncomputable def score_of (user_hz target_hz : ℝ) : ℤ :=
  pyRoundR (score_formula |1200 * Real.logb 2 (target_hz / user_hz)|)

lemma score_formula_eq_spec {d : ℝ} (hd : 0 ≤ d) :
    score_formula d = spec_raw_score d := by
  unfold score_formula spec_raw_score
  rcases le_or_lt d 5 with h1 | h1
  · rw [if_pos h1, if_pos ⟨hd, h1⟩]
  · rcases le_or_lt d 10 with h2 | h2
    · rw [if_neg (not_le.mpr h1), if_pos h2, if_neg (by rintro ⟨_, h⟩; linarith), if_pos ⟨h1, h2⟩]
    · rcases le_or_lt d 20 with h3 | h3
      · rw [if_neg (not_le.mpr h1), if_neg (not_le.mpr h2), if_pos h3,
          if_neg (by rintro ⟨_, h⟩; linarith), if_neg (by rintro ⟨_, h⟩; linarith), if_pos ⟨h2, h3⟩]
      · rcases le_or_lt d 30 with h4 | h4
        · rw [if_neg (not_le.mpr h1), if_neg (not_le.mpr h2),
            if_neg (not_le.mpr h3), if_pos h4, if_neg (by rintro ⟨_, h⟩; linarith),
            if_neg (by rintro ⟨_, h⟩; linarith),
            if_neg (by rintro ⟨h, _⟩; linarith), if_pos ⟨h3, h4⟩]
        · rcases le_or_lt d 50 with h5 | h5
          · rw [if_neg (not_le.mpr h1), if_neg (not_le.mpr h2),
              if_neg (not_le.mpr h3), if_neg (not_le.mpr h4), if_pos h5,
              if_neg (by rintro ⟨_, h⟩; linarith), if_neg (by rintro ⟨_, h⟩; linarith),
              if_neg (by rintro ⟨h, _⟩; linarith),
              if_neg (by rintro ⟨h, _⟩; linarith), if_pos ⟨h4, h5⟩]
          · rw [if_neg (not_le.mpr h1), if_neg (not_le.mpr h2),
              if_neg (not_le.mpr h3), if_neg (not_le.mpr h4),
              if_neg (not_le.mpr h5), if_neg (by rintro ⟨_, h⟩; linarith),
              if_neg (by rintro ⟨_, h⟩; linarith),
              if_neg (by rintro ⟨h, _⟩; linarith),
              if_neg (by rintro ⟨h, _⟩; linarith),
              if_neg (by rintro ⟨_, h⟩; linarith), if_pos h5]

lemma score_formula_nonneg {d : ℝ} (hd : 0 ≤ d) : 0 ≤ score_formula d := by
  unfold score_formula
  split_ifs <;> first | linarith | exact le_max_left 0 _

lemma score_formula_le_100 {d : ℝ} (hd : 0 ≤ d) : score_formula d ≤ 100 := by
  unfold score_formula
  split_ifs with h1 h2 h3 h4 h5 <;> first | linarith | (apply max_le <;> linarith)

lemma score_formula_antitone {d1 d2 : ℝ} (h0 : 0 ≤ d1) (h12 : d1 ≤ d2) :
    score_formula d2 ≤ score_formula d1 := by
  unfold score_formula
  split_ifs with a1 a2 a3 a4 a5 b1 b2 b3 b4 b5 <;>
    first
      | linarith
      | (apply max_le <;> linarith)
      | (exact max_le_max le_rfl (by linarith))

lemma calculate_score_pos {u t : ℝ} (hu : 0 < u) (ht : 0 < t) :
    calculate_score (some u) (some t) = .ok (score_of u t) := by
  have h1 : ¬(u = 0 ∨ t = 0) := by push_neg; exact ⟨ne_of_gt hu, ne_of_gt ht⟩
  have h2 : ¬(u = 0 ∨ t = 0 ∨ u ≤ 0 ∨ t ≤ 0) := by
    push_neg
    exact ⟨ne_of_gt hu, ne_of_gt ht, hu, ht⟩
  simp only [calculate_score, frequency_difference, if_neg h1, if_neg h2, score_of]

lemma score_of_nonneg {u t : ℝ} : 0 ≤ score_of u t :=
  pyRoundR_nonneg (score_formula_nonneg (abs_nonneg _))

lemma score_of_le_100 {u t : ℝ} : score_of u t ≤ 100 :=
  pyRoundR_le_of_le (by exact_mod_cast score_formula_le_100 (abs_nonneg _))

lemma score_formula_at_0 : score_formula 0 = 100 := by norm_num [score_formula]

lemma score_formula_at_50 : score_formula 50 = 50 := by norm_num [score_formula]

/-- C1 (code_bug evidence): calculate_score returns the sentinel 0 for absent
    (None) and zero inputs, but for a present negative frequency it does NOT
    return 0: frequency_difference yields None and abs(None) raises a
    TypeError (modelled as Except.error). -/
theorem calculate_score_error_on_negative :
    calculate_score none (some 440) = .ok 0 ∧
    calculate_score (some 0) (some 440) = .ok 0 ∧
    calculate_score (some 440) none = .ok 0 ∧
    calculate_score (some (-440)) (some 440) = .error () := by
  refine ⟨rfl, ?_, rfl, ?_⟩
  · norm_num [calculate_score]
  · norm_num [calculate_score, frequency_difference]

/-- C2: for strictly positive frequencies, calculate_score returns exactly
    the Python round (banker's rounding) of clamp(raw, 0, 100) where raw is
    the specification's piecewise table applied to the absolute cent
    deviation; the result is an integer in 0..100; and score(f, f) = 100 for
    every positive f. -/
theorem calculate_score_matches_spec_table :
    (∀ u t : ℝ, 0 < u → 0 < t →
        calculate_score (some u) (some t) =
          .ok (pyRoundR (min 100 (max 0
            (spec_raw_score |1200 * Real.logb 2 (t / u)|)))) ∧
        0 ≤ score_of u t ∧ score_of u t ≤ 100) ∧
    (∀ f : ℝ, 0 < f → calculate_score (some f) (some f) = .ok 100) := by
  constructor
  · intro u t hu ht
    refine ⟨?_, score_of_nonneg, score_of_le_100⟩
    rw [calculate_score_pos hu ht]
    unfold score_of
    rw [← score_formula_eq_spec (abs_nonneg _),
      max_eq_right (score_formula_nonneg (abs_nonneg _)),
      min_eq_right (score_formula_le_100 (abs_nonneg _))]
  · intro f hf
    rw [calculate_score_pos hf hf]
    unfold score_of
    rw [div_self (ne_of_gt hf), Real.logb_one]
    norm_num [score_formula_at_0]
    have : ((100:ℤ):ℝ) = (100:ℝ) := by norm_num
    rw [← this, pyRoundR_intCast]

/-- C2 witness at concrete inputs 440, 550 and the diagonal at 440. -/
theorem calculate_score_matches_spec_table_witness :
    (calculate_score (some (440:ℝ)) (some 550) =
        .ok (pyRoundR (min 100 (max 0
          (spec_raw_score |1200 * Real.logb 2 ((550:ℝ) / 440)|)))) ∧
      0 ≤ score_of (440:ℝ) 550 ∧ score_of (440:ℝ) 550 ≤ 100) ∧
    calculate_score (some (440:ℝ)) (some 440) = .ok 100 :=
  ⟨calculate_score_matches_spec_table.1 440 550 (by norm_num) (by norm_num),
   calculate_score_matches_spec_table.2 440 (by norm_num)⟩

/-- C8: the integer score is non-increasing in the absolute cent deviation;
    calculate_score on positive inputs produces exactly that score; and the
    score is exactly 50 at 50 cents and exactly 100 at 0 cents. -/
theorem score_monotone_in_cents :
    (∀ u1 t1 u2 t2 : ℝ, 0 < u1 → 0 < t1 → 0 < u2 → 0 < t2 →
        |1200 * Real.logb 2 (t1 / u1)| ≤ |1200 * Real.logb 2 (t2 / u2)| →
        score_of u2 t2 ≤ score_of u1 t1) ∧
    (∀ u t : ℝ, 0 < u → 0 < t →
        calculate_score (some u) (some t) = .ok (score_of u t)) ∧
    pyRoundR (score_formula 50) = 50 ∧ pyRoundR (score_formula 0) = 100 := by
  refine ⟨?_, fun u t hu ht => calculate_score_pos hu ht, ?_, ?_⟩
  · intro u1 t1 u2 t2 _ _ _ _ h
    exact pyRoundR_mono (score_formula_antitone (abs_nonneg _) h)
  · rw [score_formula_at_50]
    have : ((50:ℤ):ℝ) = (50:ℝ) := by norm_num
    rw [← this, pyRoundR_intCast]
  · rw [score_formula_at_0]
    have : ((100:ℤ):ℝ) = (100:ℝ) := by norm_num
    rw [← this, pyRoundR_intCast]

/-- C8 witness: a concrete monotonicity instance (0 cents vs 1200 cents)
    plus a concrete evaluation instance. -/
theorem score_monotone_in_cents_witness :
    score_of (1:ℝ) 2 ≤ score_of (440:ℝ) 440 ∧
    calculate_score (some (3:ℝ)) (some 4) = .ok (score_of 3 4) :=
  ⟨score_monotone_in_cents.1 440 440 1 2 (by norm_num) (by norm_num)
      (by norm_num) (by norm_num)
      (by rw [div_self (by norm_num : (440:ℝ) ≠ 0)]
          norm_num [Real.logb_self_eq_one]),
   score_monotone_in_cents.2.1 3 4 (by norm_num) (by norm_num)⟩

/-- C10: calculate_score is symmetric in its two arguments for strictly
    positive frequencies, because the score depends only on the absolute
    value of the cent difference. -/
theorem calculate_score_symmetric :
    ∀ a b : ℝ, 0 < a → 0 < b →
      calculate_score (some a) (some b) = calculate_score (some b) (some a) := by
  intro a b ha hb
  rw [calculate_score_pos ha hb, calculate_score_pos hb ha]
  unfold score_of
  have : a / b = (b / a)⁻¹ := (inv_div b a).symm
  rw [this, Real.logb_inv]
  rw [show 1200 * -Real.logb 2 (b / a) = -(1200 * Real.logb 2 (b / a)) by ring,
    abs_neg]

/-- C10 witness at 440 and 550. -/
theorem calculate_score_symmetric_witness :
    calculate_score (some (440:ℝ)) (some 550) =
      calculate_score (some (550:ℝ)) (some 440) :=
  calculate_score_symmetric 440 550 (by norm_num) (by norm_num)

/-! ### PitchDetector: detect_pitch (app.py / analyze_music.py) -/

/-- np.mean of a list of rationals (sum / length; the empty case is never
    used on a defined path). -/
def list_mean (l : List ℚ) : ℚ := l.sum / l.length

/-- Sum of squared deviations from the mean (the numerator building block of
    np.corrcoef). -/
def var_sum (l : List ℚ) : ℚ := (l.map (fun v => (v - list_mean l) ^ 2)).sum

/-- Cross sum of deviations, the numerator of the Pearson correlation. -/
def corr_num (x y : List ℚ) : ℚ :=
  ((x.zip y).map (fun p => (p.1 - list_mean x) * (p.2 - list_mean y))).sum

/-- np.corrcoef(x, y)[0, 1]: Pearson correlation; none models the NaN that
    numpy produces when either slice has zero variance (numpy raises for
    mismatched lengths, which detect_pitch only produces when
    sample_rate < 800; theorems about that path carry 800 <= sample_rate). -/
noncomputable def corrcoef (x y : List ℚ) : Option ℝ :=
  if x.length ≠ y.length ∨ x.length = 0 then none
  else if var_sum x = 0 ∨ var_sum y = 0 then none
  else some ((corr_num x y : ℝ) / Real.sqrt ((var_sum x : ℝ) * (var_sum y : ℝ)))

/-- Python buffer[:-period]. For period = 0 this is the empty list. -/
def python_tail_slice (l : List ℚ) (p : ℕ) : List ℚ :=
  if p = 0 then [] else l.take (l.length - p)

/-- The autocorrelation loop of detect_pitch: for each period in
    range(min_period, max_period), track (best_period, best_correlation),
    skipping NaN correlations and updating on strict improvement. -/
noncomputable def best_period_search (buffer : List ℚ)
    (min_period max_period : ℕ) : ℕ × ℝ :=
  (List.range' min_period (max_period - min_period)).foldl
    (fun best period =>
      match corrcoef (python_tail_slice buffer period) (buffer.drop period) with
      | none => best
      | some c => if best.2 < c then (period, c) else best)
    (0, 0)

/-- detect_pitch from app.py lines 13-50 (identical logic in
    analyze_music.py lines 42-75, only the default threshold differs, so the
    threshold is a parameter). -/
noncomputable def detect_pitch (buffer : List ℚ) (sample_rate : ℕ)
    (volume_threshold : ℝ) : Option ℝ :=
  if Real.sqrt ((list_mean (buffer.map (fun v => v * v)) : ℚ) : ℝ) <
      volume_threshold then none
  else
    let min_period := sample_rate / 800
    let max_period := sample_rate / 80
    if buffer.length < max_period then none
    else
      let best := best_period_search buffer min_period max_period
      if 0 < best.1 ∧ (0.15 : ℝ) < best.2 then
        some ((sample_rate : ℝ) / best.1)
      else none

lemma var_sum_nonneg (l : List ℚ) : 0 ≤ var_sum l := by
  apply List.sum_nonneg
  intro a ha
  rcases List.mem_map.mp ha with ⟨v, _, rfl⟩
  positivity

lemma var_sum_nil : var_sum [] = 0 := rfl

lemma corrcoef_none_of_var_left {x y : List ℚ} (h : var_sum x = 0) :
    corrcoef x y = none := by
  unfold corrcoef
  split_ifs with h1 h2
  · rfl
  · rfl
  · exact absurd (Or.inl h) h2

lemma sum_map_add_const (x : List ℚ) (c : ℚ) :
    (x.map (fun v => v + c)).sum = x.sum + x.length * c := by
  induction x with
  | nil => simp
  | cons a t ih => simp [ih]; ring

lemma list_mean_map_add_const {x : List ℚ} (hx : x ≠ []) (c : ℚ) :
    list_mean (x.map (fun v => v + c)) = list_mean x + c := by
  unfold list_mean
  rw [List.length_map, sum_map_add_const]
  have hl : x.length ≠ 0 := fun h0 => hx (List.length_eq_zero.mp h0)
  have hn : (x.length : ℚ) ≠ 0 := by exact_mod_cast hl
  field_simp
  ring

lemma var_sum_map_add_const {x : List ℚ} (hx : x ≠ []) (c : ℚ) :
    var_sum (x.map (fun v => v + c)) = var_sum x := by
  unfold var_sum
  rw [list_mean_map_add_const hx c, List.map_map]
  have hfun : ((fun v => (v - (list_mean x + c)) ^ 2) ∘ fun v => v + c)
      = fun v : ℚ => (v - list_mean x) ^ 2 := by
    funext v
    simp only [Function.comp]
    ring
  rw [hfun]

lemma corr_num_map_add_const {x : List ℚ} (hx : x ≠ []) (c : ℚ) :
    corr_num x (x.map (fun v => v + c)) = var_sum x := by
  unfold corr_num var_sum
  rw [list_mean_map_add_const hx c]
  have hz : x.zip (x.map (fun v => v + c)) = x.map (fun v => (v, v + c)) := by
    conv_lhs => rw [show x.zip (x.map (fun v => v + c))
      = (x.map id).zip (x.map (fun v => v + c)) by rw [List.map_id]]
    rw [List.zip_map']
    simp
  rw [hz, List.map_map]
  have hfun : ((fun p : ℚ × ℚ => (p.1 - list_mean x) * (p.2 - (list_mean x + c)))
        ∘ fun v => (v, v + c))
      = fun v : ℚ => (v - list_mean x) ^ 2 := by
    funext v
    simp only [Function.comp]
    ring
  rw [hfun]

lemma corr_shift (x : List ℚ) (c : ℚ) (h : var_sum x ≠ 0) :
    corrcoef x (x.map (fun v => v + c)) = some 1 := by
  have hx : x ≠ [] := by
    rintro rfl
    exact h var_sum_nil
  have hlen : (x.map (fun v => v + c)).length = x.length := List.length_map _ _
  have hl : x.length ≠ 0 := fun h0 => hx (List.length_eq_zero.mp h0)
  unfold corrcoef
  rw [if_neg (by push_neg; exact ⟨hlen.symm, hl⟩),
    if_neg (by
      push_neg
      exact ⟨h, by rw [var_sum_map_add_const hx c]; exact h⟩)]
  rw [corr_num_map_add_const hx c, var_sum_map_add_const hx c]
  have hS : (0:ℝ) ≤ (var_sum x : ℝ) := by exact_mod_cast var_sum_nonneg x
  rw [Real.sqrt_mul_self hS]
  have hS0 : (var_sum x : ℝ) ≠ 0 := by exact_mod_cast h
  rw [div_self hS0]

lemma foldl_id_of_none {α β : Type} (step : α → β → α) :
    ∀ (ps : List β) (init : α), (∀ p ∈ ps, ∀ b, step b p = b) →
      ps.foldl step init = init := by
  intro ps
  induction ps with
  | nil => intro init _; rfl
  | cons q t ih =>
      intro init h
      rw [List.foldl_cons, h q (List.mem_cons_self q t) init]
      exact ih init (fun p hp b => h p (List.mem_cons_of_mem q hp) b)

lemma foldl_preserves {α β : Type} (P : α → Prop) (step : α → β → α) :
    ∀ (ps : List β) (init : α), P init →
      (∀ b p, p ∈ ps → P b → P (step b p)) → P (ps.foldl step init) := by
  intro ps
  induction ps with
  | nil => intro init h0 _; exact h0
  | cons q t ih =>
      intro init h0 hstep
      rw [List.foldl_cons]
      exact ih (step init q) (hstep init q (List.mem_cons_self q t) h0)
        (fun b p hp hb => hstep b p (List.mem_cons_of_mem q hp) hb)

lemma var_sum_replicate_zero (k : ℕ) : var_sum (List.replicate k (0:ℚ)) = 0 := by
  unfold var_sum list_mean
  simp

lemma best_period_search_of_all_none {buffer : List ℚ} {minP maxP : ℕ}
    (h : ∀ p, minP ≤ p → p < maxP →
      corrcoef (python_tail_slice buffer p) (buffer.drop p) = none) :
    best_period_search buffer minP maxP = (0, 0) := by
  unfold best_period_search
  apply foldl_id_of_none
  intro p hp b
  rcases List.mem_range'_1.mp hp with ⟨h1, h2⟩
  rcases le_or_lt maxP minP with hmm | hmm
  · omega
  · rw [h p h1 (by omega)]

lemma in_range_case {minP maxP p : ℕ}
    (hp : p ∈ List.range' minP (maxP - minP)) : minP ≤ p ∧ p < maxP := by
  rcases List.mem_range'_1.mp hp with ⟨h1, h2⟩
  exact ⟨h1, by omega⟩

lemma best_period_search_range {buffer : List ℚ} {minP maxP : ℕ} :
    (best_period_search buffer minP maxP).1 = 0 ∨
      (minP ≤ (best_period_search buffer minP maxP).1 ∧
        (best_period_search buffer minP maxP).1 < maxP) := by
  unfold best_period_search
  apply foldl_preserves
    (fun b : ℕ × ℝ => b.1 = 0 ∨ (minP ≤ b.1 ∧ b.1 < maxP))
  · exact Or.inl rfl
  · intro b p hp hb
    rcases in_range_case hp with ⟨h1, h2⟩
    cases corrcoef (python_tail_slice buffer p) (buffer.drop p) with
    | none => exact hb
    | some c =>
        simp only
        split_ifs with hc
        · exact Or.inr ⟨h1, h2⟩
        · exact hb

/-- C9: detect_pitch returns None when the RMS is below the volume
    threshold, when the buffer is shorter than max_period, and on all-zero
    buffers (any threshold, including non-positive ones where the
    correlation loop runs and every correlation is NaN). The all-zero case
    carries 800 <= sample_rate, the hypothesis under which the slice pair
    always has matching lengths (numpy would raise below that). -/
theorem detect_pitch_none_cases :
    (∀ (buffer : List ℚ) (sr : ℕ) (vt : ℝ),
        Real.sqrt ((list_mean (buffer.map (fun v => v * v)) : ℚ) : ℝ) < vt →
        detect_pitch buffer sr vt = none) ∧
    (∀ (buffer : List ℚ) (sr : ℕ) (vt : ℝ),
        buffer.length < sr / 80 → detect_pitch buffer sr vt = none) ∧
    (∀ (n sr : ℕ) (vt : ℝ), 800 ≤ sr →
        detect_pitch (List.replicate n 0) sr vt = none) := by
  refine ⟨?_, ?_, ?_⟩
  · intro buffer sr vt h
    unfold detect_pitch
    rw [if_pos h]
  · intro buffer sr vt h
    simp only [detect_pitch]
    split_ifs with h1 h2 <;> first | rfl | exact absurd h h2
  · intro n sr vt hsr
    simp only [detect_pitch]
    split_ifs with h1 h2 h3
    · rfl
    · rfl
    · exfalso
      have hbest : best_period_search (List.replicate n 0) (sr / 800) (sr / 80)
          = (0, 0) := by
        apply best_period_search_of_all_none
        intro p hp1 hp2
        apply corrcoef_none_of_var_left
        have hp0 : p ≠ 0 := by
          have : 1 ≤ sr / 800 := (Nat.one_le_div_iff (by norm_num)).mpr hsr
          omega
        unfold python_tail_slice
        rw [if_neg hp0, List.length_replicate, List.take_replicate]
        exact var_sum_replicate_zero _
      rw [hbest] at h3
      exact absurd h3.1 (by norm_num)
    · rfl

/-- C9 witness: quiet buffer, short buffer, and an all-zero buffer that
    reaches the correlation loop. -/
theorem detect_pitch_none_cases_witness :
    detect_pitch [5] 800 6 = none ∧
    detect_pitch [1, 2] 800 0 = none ∧
    detect_pitch (List.replicate 12 0) 800 (3/1000) = none := by
  refine ⟨detect_pitch_none_cases.1 [5] 800 6 ?_,
    detect_pitch_none_cases.2.1 [1, 2] 800 0 (by norm_num),
    detect_pitch_none_cases.2.2 12 800 (3/1000) (by norm_num)⟩
  have hm : list_mean ([5].map (fun v => v * v)) = 25 := by
    norm_num [list_mean]
  rw [hm]
  have h25 : ((25:ℚ):ℝ) = (5:ℝ) ^ 2 := by norm_num
  rw [h25, Real.sqrt_sq (by norm_num : (0:ℝ) ≤ 5)]
  norm_num

/-- A 12-sample ramp buffer. Its slices are perfectly linearly related, so
    every period in the search range correlates at exactly 1 and the first
    period wins. -/
def ramp12 : List ℚ := [0, 1, 2, 3, 4, 5, 6, 7, 8, 9, 10, 11]

lemma ramp_c1 : corrcoef (python_tail_slice ramp12 1) (ramp12.drop 1) = some 1 := by
  have hdp : ramp12.drop 1 = (python_tail_slice ramp12 1).map (fun v => v + 1) := by norm_num [ramp12, python_tail_slice]
  rw [hdp]
  exact corr_shift _ 1 (by norm_num [var_sum, list_mean, python_tail_slice, ramp12])

lemma ramp_c2 : corrcoef (python_tail_slice ramp12 2) (ramp12.drop 2) = some 1 := by
  have hdp : ramp12.drop 2 = (python_tail_slice ramp12 2).map (fun v => v + 2) := by norm_num [ramp12, python_tail_slice]
  rw [hdp]
  exact corr_shift _ 2 (by norm_num [var_sum, list_mean, python_tail_slice, ramp12])

lemma ramp_c3 : corrcoef (python_tail_slice ramp12 3) (ramp12.drop 3) = some 1 := by
  have hdp : ramp12.drop 3 = (python_tail_slice ramp12 3).map (fun v => v + 3) := by norm_num [ramp12, python_tail_slice]
  rw [hdp]
  exact corr_shift _ 3 (by norm_num [var_sum, list_mean, python_tail_slice, ramp12])

lemma ramp_c4 : corrcoef (python_tail_slice ramp12 4) (ramp12.drop 4) = some 1 := by
  have hdp : ramp12.drop 4 = (python_tail_slice ramp12 4).map (fun v => v + 4) := by norm_num [ramp12, python_tail_slice]
  rw [hdp]
  exact corr_shift _ 4 (by norm_num [var_sum, list_mean, python_tail_slice, ramp12])

lemma ramp_c5 : corrcoef (python_tail_slice ramp12 5) (ramp12.drop 5) = some 1 := by
  have hdp : ramp12.drop 5 = (python_tail_slice ramp12 5).map (fun v => v + 5) := by norm_num [ramp12, python_tail_slice]
  rw [hdp]
  exact corr_shift _ 5 (by norm_num [var_sum, list_mean, python_tail_slice, ramp12])

lemma ramp_c6 : corrcoef (python_tail_slice ramp12 6) (ramp12.drop 6) = some 1 := by
  have hdp : ramp12.drop 6 = (python_tail_slice ramp12 6).map (fun v => v + 6) := by norm_num [ramp12, python_tail_slice]
  rw [hdp]
  exact corr_shift _ 6 (by norm_num [var_sum, list_mean, python_tail_slice, ramp12])

lemma ramp_c7 : corrcoef (python_tail_slice ramp12 7) (ramp12.drop 7) = some 1 := by
  have hdp : ramp12.drop 7 = (python_tail_slice ramp12 7).map (fun v => v + 7) := by norm_num [ramp12, python_tail_slice]
  rw [hdp]
  exact corr_shift _ 7 (by norm_num [var_sum, list_mean, python_tail_slice, ramp12])

lemma ramp_c8 : corrcoef (python_tail_slice ramp12 8) (ramp12.drop 8) = some 1 := by
  have hdp : ramp12.drop 8 = (python_tail_slice ramp12 8).map (fun v => v + 8) := by norm_num [ramp12, python_tail_slice]
  rw [hdp]
  exact corr_shift _ 8 (by norm_num [var_sum, list_mean, python_tail_slice, ramp12])

lemma ramp_c9 : corrcoef (python_tail_slice ramp12 9) (ramp12.drop 9) = some 1 := by
  have hdp : ramp12.drop 9 = (python_tail_slice ramp12 9).map (fun v => v + 9) := by norm_num [ramp12, python_tail_slice]
  rw [hdp]
  exact corr_shift _ 9 (by norm_num [var_sum, list_mean, python_tail_slice, ramp12])

lemma ramp_c10 : corrcoef (python_tail_slice ramp12 10) (ramp12.drop 10) = some 1 := by
  have hdp : ramp12.drop 10 = (python_tail_slice ramp12 10).map (fun v => v + 10) := by norm_num [ramp12, python_tail_slice]
  rw [hdp]
  exact corr_shift _ 10 (by norm_num [var_sum, list_mean, python_tail_slice, ramp12])

lemma ramp_c11 : corrcoef (python_tail_slice ramp12 11) (ramp12.drop 11) = none := by
  apply corrcoef_none_of_var_left
  norm_num [var_sum, list_mean, python_tail_slice, ramp12]

lemma best_period_search_ramp : best_period_search ramp12 1 12 = (1, 1) := by
  unfold best_period_search
  have hr : List.range' 1 (12 - 1) = [1, 2, 3, 4, 5, 6, 7, 8, 9, 10, 11] := by decide
  rw [hr]
  simp only [List.foldl_cons, List.foldl_nil, ramp_c1, ramp_c2, ramp_c3,
    ramp_c4, ramp_c5, ramp_c6, ramp_c7, ramp_c8, ramp_c9, ramp_c10, ramp_c11]
  norm_num

lemma detect_pitch_ramp_eval : detect_pitch ramp12 960 (3/1000) = some 960 := by
  have hmean : list_mean (ramp12.map (fun v => v * v)) = 253/6 := by
    norm_num [list_mean, ramp12]
  have hrms : ¬ (Real.sqrt ((253/6 : ℚ) : ℝ) < 3/1000) := by
    have hc : ((253/6 : ℚ) : ℝ) = 253/6 := by norm_num
    rw [hc, not_lt]
    have h1 : (1:ℝ) ≤ Real.sqrt (253/6) := by
      rw [show (1:ℝ) = Real.sqrt 1 from Real.sqrt_one.symm]
      exact Real.sqrt_le_sqrt (by norm_num)
    linarith
  have hd1 : (960:ℕ) / 800 = 1 := by norm_num
  have hd2 : (960:ℕ) / 80 = 12 := by norm_num
  simp only [detect_pitch, hmean, hd1, hd2]
  rw [if_neg hrms, if_neg (by norm_num [ramp12]), best_period_search_ramp,
    if_pos (by norm_num)]
  norm_num

/-- C7 counterexample: the ramp buffer at sample rate 960 makes detect_pitch
    return 960 Hz, which is outside the claimed 80 to 800 Hz band, because
    min_period = floor(960 / 800) = 1 and 960 / 1 = 960 > 800. -/
theorem detect_pitch_exceeds_band :
    detect_pitch ramp12 960 (3/1000) = some 960 ∧ ¬ ((960:ℝ) ≤ 800) :=
  ⟨detect_pitch_ramp_eval, by norm_num⟩

/-- C7 (amended): when detect_pitch returns a frequency it equals
    sample_rate / p for some period p with max(1, floor(sr/800)) <= p <
    floor(sr/80); the frequency is therefore strictly above 80 Hz, but it
    can exceed 800 Hz (up to sr / floor(sr/800)) because min_period is
    floored. -/
theorem detect_pitch_band_amended :
    ∀ (buffer : List ℚ) (sr : ℕ) (vt f : ℝ),
      detect_pitch buffer sr vt = some f →
      ∃ p : ℕ, 1 ≤ p ∧ sr / 800 ≤ p ∧ p < sr / 80 ∧
        f = (sr : ℝ) / p ∧ 80 < f := by
  intro buffer sr vt f h
  simp only [detect_pitch] at h
  split_ifs at h with h1 h2 h3
  all_goals try exact Option.noConfusion h
  · rcases best_period_search_range with h0 | ⟨hlo, hhi⟩
    · rw [h0] at h3
      exact absurd h3.1 (by norm_num)
    · set p := (best_period_search buffer (sr / 800) (sr / 80)).1 with hp
      have hf : f = (sr : ℝ) / p := by
        have := Option.some.inj h
        exact this.symm
      have hp1 : 1 ≤ p := h3.1
      have hmul : (p + 1) * 80 ≤ sr := by
        have := (Nat.le_div_iff_mul_le (by norm_num : 0 < 80)).mp
          (Nat.succ_le_of_lt hhi)
        omega
      have hprR : (0:ℝ) < (p:ℝ) := by exact_mod_cast hp1
      have h80 : (80:ℝ) * p < sr := by
        have hs : 80 * p + 80 ≤ sr := by omega
        exact_mod_cast by omega
      refine ⟨p, hp1, hlo, hhi, hf, ?_⟩
      rw [hf]
      rw [lt_div_iff hprR]
      linarith

/-- C7 witness for the amended theorem, at the ramp buffer instance. -/
theorem detect_pitch_band_amended_witness :
    ∃ p : ℕ, 1 ≤ p ∧ 960 / 800 ≤ p ∧ p < 960 / 80 ∧
      (960:ℝ) = ((960:ℕ) : ℝ) / p ∧ 80 < (960:ℝ) :=
  detect_pitch_band_amended ramp12 960 (3/1000) 960 detect_pitch_ramp_eval

/-! ### TrackSelector data: notes, polyphony rate (analyze_music.py) -/

/-- A MIDI note as the analysis code consumes it: start and end times in
    seconds and a MIDI pitch number. The end field is named stop because
    end is a Lean keyword. -/
structure Note where
  start : ℚ
  stop : ℚ
  pitch : ℕ
deriving DecidableEq

/-- Summed overlap between consecutive (start-sorted) notes, counting a pair
    only when the earlier note ends more than 0.05 s after the later one
    starts (analyze_music.py lines 216-223 and 453-461). -/
def overlap_duration : List Note → ℚ
  | a :: b :: rest =>
      (if b.start + 1/20 < a.stop then min a.stop b.stop - b.start else 0) +
        overlap_duration (b :: rest)
  | _ => 0

/-- last.end - first.start over the start-sorted note list. -/
def total_duration (sorted_notes : List Note) : ℚ :=
  ((sorted_notes.getLast?.map Note.stop).getD 0) -
    ((sorted_notes.head?.map Note.start).getD 0)

/-- polyphony_rate in the pretty_midi path (line 226): NOT clamped. -/
def polyphony_rate_pm (sorted_notes : List Note) : ℚ :=
  if 0 < total_duration sorted_notes then
    overlap_duration sorted_notes / total_duration sorted_notes
  else 0

/-- polyphony_rate in the mido path (line 464): clamped above by 1. -/
def polyphony_rate_mido (sorted_notes : List Note) : ℚ :=
  if 0 < total_duration sorted_notes then
    min 1 (overlap_duration sorted_notes / total_duration sorted_notes)
  else 0

lemma overlap_duration_nonneg :
    ∀ l : List Note, (∀ n ∈ l, n.start ≤ n.stop) → 0 ≤ overlap_duration l := by
  intro l
  induction l with
  | nil => intro _; simp [overlap_duration]
  | cons a t ih =>
      intro h
      cases t with
      | nil => simp [overlap_duration]
      | cons b r =>
          have hb : b.start ≤ b.stop := h b (by simp)
          have h' : 0 ≤ overlap_duration (b :: r) :=
            ih (fun n hn => h n (List.mem_cons_of_mem a hn))
          simp only [overlap_duration]
          split_ifs with hc
          · have hmin : b.start ≤ min a.stop b.stop := le_min (by linarith) hb
            linarith
          · linarith

lemma overlap_replicate (k : ℕ) :
    overlap_duration (List.replicate (k + 1) ⟨0, 10, 60⟩) = 10 * k := by
  induction k with
  | zero => simp [overlap_duration, List.replicate]
  | succ m ih =>
      rw [List.replicate_succ]
      rw [show List.replicate (m + 1) (⟨0, 10, 60⟩ : Note)
        = ⟨0, 10, 60⟩ :: List.replicate m ⟨0, 10, 60⟩ from List.replicate_succ _ _]
      rw [show ((⟨0, 10, 60⟩ : Note) :: ⟨0, 10, 60⟩ :: List.replicate m ⟨0, 10, 60⟩)
        = ⟨0, 10, 60⟩ :: (⟨0, 10, 60⟩ :: List.replicate m ⟨0, 10, 60⟩) from rfl]
      simp only [overlap_duration]
      rw [← List.replicate_succ, ih]
      norm_num
      ring

/-- C4 counterexample: a surviving track (51 notes, not drums) made of 51
    copies of the same 10-second note has polyphony_rate = 50 in the
    pretty_midi path, which exceeds 1: that path does not clamp. -/
theorem polyphony_rate_exceeds_one :
    polyphony_rate_pm (List.replicate 51 ⟨0, 10, 60⟩) = 50 ∧
    ¬ (polyphony_rate_pm (List.replicate 51 ⟨0, 10, 60⟩) ≤ 1) ∧
    50 ≤ (List.replicate 51 (⟨0, 10, 60⟩ : Note)).length := by
  have htot : total_duration (List.replicate 51 ⟨0, 10, 60⟩) = 10 := by
    unfold total_duration
    rw [show (51 : ℕ) = 50 + 1 from rfl, List.getLast?_replicate]
    simp [List.replicate_succ]
  have hov : overlap_duration (List.replicate 51 ⟨0, 10, 60⟩) = 500 := by
    rw [show (51 : ℕ) = 50 + 1 from rfl, overlap_replicate]
    norm_num
  have hrate : polyphony_rate_pm (List.replicate 51 ⟨0, 10, 60⟩) = 50 := by
    unfold polyphony_rate_pm
    rw [htot, hov, if_pos (by norm_num)]
    norm_num
  exact ⟨hrate, by rw [hrate]; norm_num, by simp⟩

/-- C4 (amended): the mido path computes min(1, overlap/total) (equal to
    clamp(overlap/total, 0, 1) for well-formed notes) and hence stays in
    [0, 1], and both paths give 0 when total_duration <= 0; but the
    pretty_midi path divides without clamping and can exceed 1. -/
theorem polyphony_rate_amended :
    ∀ notes : List Note, (∀ n ∈ notes, n.start ≤ n.stop) →
      (0 ≤ polyphony_rate_mido notes ∧ polyphony_rate_mido notes ≤ 1) ∧
      (total_duration notes ≤ 0 →
        polyphony_rate_mido notes = 0 ∧ polyphony_rate_pm notes = 0) ∧
      (0 < total_duration notes →
        polyphony_rate_mido notes =
          min 1 (max 0 (overlap_duration notes / total_duration notes)) ∧
        polyphony_rate_pm notes =
          overlap_duration notes / total_duration notes) := by
  intro notes hwf
  have hov := overlap_duration_nonneg notes hwf
  refine ⟨?_, ?_, ?_⟩
  · unfold polyphony_rate_mido
    split_ifs with ht
    · constructor
      · exact le_min (by norm_num) (div_nonneg hov (le_of_lt ht))
      · exact min_le_left _ _
    · norm_num
  · intro ht
    unfold polyphony_rate_mido polyphony_rate_pm
    rw [if_neg (not_lt.mpr ht), if_neg (not_lt.mpr ht)]
    exact ⟨rfl, rfl⟩
  · intro ht
    unfold polyphony_rate_mido polyphony_rate_pm
    rw [if_pos ht, if_pos ht,
      max_eq_right (div_nonneg hov (le_of_lt ht))]
    exact ⟨rfl, rfl⟩

/-- C4 witness: a concrete two-note overlapping track. -/
theorem polyphony_rate_amended_witness :
    (0 ≤ polyphony_rate_mido [⟨0, 2, 60⟩, ⟨1, 2, 64⟩] ∧
      polyphony_rate_mido [⟨0, 2, 60⟩, ⟨1, 2, 64⟩] ≤ 1) ∧
    (polyphony_rate_mido [⟨0, 2, 60⟩, ⟨1, 2, 64⟩] =
        min 1 (max 0 (overlap_duration [⟨0, 2, 60⟩, ⟨1, 2, 64⟩] /
          total_duration [⟨0, 2, 60⟩, ⟨1, 2, 64⟩])) ∧
      polyphony_rate_pm [⟨0, 2, 60⟩, ⟨1, 2, 64⟩] =
        overlap_duration [⟨0, 2, 60⟩, ⟨1, 2, 64⟩] /
          total_duration [⟨0, 2, 60⟩, ⟨1, 2, 64⟩]) := by
  have hwf : ∀ n ∈ ([⟨0, 2, 60⟩, ⟨1, 2, 64⟩] : List Note),
      n.start ≤ n.stop := by
    intro n hn
    simp only [List.mem_cons, List.not_mem_nil, or_false] at hn
    rcases hn with rfl | rfl <;> norm_num
  exact ⟨(polyphony_rate_amended _ hwf).1,
    (polyphony_rate_amended _ hwf).2.2 (by norm_num [total_duration])⟩

/-! ### TrackSelector fallback (analyze_music.py lines 500-534, mido path) -/

/-- The max key used by the mido fallback:
    (avg_pitch if avg_pitch >= 50 else 0, note_count), over rows
    (track_idx, avg_pitch, note_count). -/
def fallback_key (t : ℕ × ℚ × ℕ) : ℚ × ℕ :=
  (if 50 ≤ t.2.1 then t.2.1 else 0, t.2.2)

/-- Python tuple comparison a > b on (float, int) pairs. -/
def tuple_gt (a b : ℚ × ℕ) : Prop := b.1 < a.1 ∨ (b.1 = a.1 ∧ b.2 < a.2)

instance (a b : ℚ × ℕ) : Decidable (tuple_gt a b) := by
  unfold tuple_gt
  infer_instance

/-- Python max(items, key) over a nonempty list given as head and tail:
    keeps the first row whose key no later row strictly exceeds. -/
def py_max_run (h : ℕ × ℚ × ℕ) (t : List (ℕ × ℚ × ℕ)) : ℕ × ℚ × ℕ :=
  t.foldl (fun best x =>
    if tuple_gt (fallback_key x) (fallback_key best) then x else best) h

/-- The fallback track choice: max over the rows of tracks that have at
    least one note event; Track 0 when no track has any note. -/
def choose_fallback (tracks : List (ℕ × ℚ × ℕ)) : ℕ :=
  match tracks with
  | [] => 0
  | h :: t => (py_max_run h t).1

lemma tuple_gt_irrefl (a : ℚ × ℕ) : ¬ tuple_gt a a := by
  unfold tuple_gt
  rintro (h | ⟨_, h⟩)
  · exact lt_irrefl _ h
  · exact lt_irrefl _ h

lemma tuple_gt_shift {a b c : ℚ × ℕ} (hac : tuple_gt a c) (hab : ¬ tuple_gt a b) :
    tuple_gt b c := by
  unfold tuple_gt at *
  push_neg at hab
  rcases hac with h | ⟨he, h2⟩
  · rcases lt_or_eq_of_le hab.1 with hb | hb
    · exact Or.inl (lt_trans h hb)
    · exact Or.inl (hb ▸ h)
  · rcases lt_or_eq_of_le hab.1 with hb | hb
    · exact Or.inl (he ▸ hb)
    · exact Or.inr ⟨hb ▸ he, lt_of_lt_of_le h2 (hab.2 hb.symm)⟩

lemma tuple_gt_trans {a b c : ℚ × ℕ} (h1 : tuple_gt a b)
    (h2 : tuple_gt b c) : tuple_gt a c := by
  unfold tuple_gt at *
  rcases h1 with h | ⟨e1, l1⟩ <;> rcases h2 with h' | ⟨e2, l2⟩
  · exact Or.inl (lt_trans h' h)
  · exact Or.inl (e2 ▸ h)
  · exact Or.inl (e1 ▸ h')
  · exact Or.inr ⟨e2.trans e1, lt_trans l2 l1⟩

lemma py_max_run_mem : ∀ (t : List (ℕ × ℚ × ℕ)) (h : ℕ × ℚ × ℕ),
    py_max_run h t ∈ h :: t := by
  intro t
  induction t with
  | nil => intro h; simp [py_max_run]
  | cons q r ih =>
      intro h
      show py_max_run (if tuple_gt (fallback_key q) (fallback_key h)
        then q else h) r ∈ h :: q :: r
      by_cases hg : tuple_gt (fallback_key q) (fallback_key h)
      · rw [if_pos hg]
        rcases List.mem_cons.mp (ih q) with h1 | h1
        · rw [h1]
          exact List.mem_cons_of_mem _ (List.mem_cons_self q r)
        · exact List.mem_cons_of_mem _ (List.mem_cons_of_mem q h1)
      · rw [if_neg hg]
        rcases List.mem_cons.mp (ih h) with h1 | h1
        · rw [h1]
          exact List.mem_cons_self h _
        · exact List.mem_cons_of_mem _ (List.mem_cons_of_mem q h1)

lemma py_max_run_not_gt : ∀ (t : List (ℕ × ℚ × ℕ)) (h x : ℕ × ℚ × ℕ),
    x ∈ h :: t →
    ¬ tuple_gt (fallback_key x) (fallback_key (py_max_run h t)) := by
  intro t
  induction t with
  | nil =>
      intro h x hx
      rw [List.mem_singleton] at hx
      subst hx
      simp only [py_max_run, List.foldl_nil]
      exact tuple_gt_irrefl _
  | cons q r ih =>
      intro h x hx
      show ¬ tuple_gt (fallback_key x)
        (fallback_key (py_max_run (if tuple_gt (fallback_key q)
          (fallback_key h) then q else h) r))
      by_cases hg : tuple_gt (fallback_key q) (fallback_key h)
      · rw [if_pos hg]
        rcases List.mem_cons.mp hx with hxh | hx'
        · intro hcon
          rw [hxh] at hcon
          exact ih q q (List.mem_cons_self q r) (tuple_gt_trans hg hcon)
        · exact ih q x hx'
      · rw [if_neg hg]
        rcases List.mem_cons.mp hx with hxh | hx'
        · rw [hxh]
          exact ih h h (List.mem_cons_self h r)
        · rcases List.mem_cons.mp hx' with hxq | hx''
          · intro hcon
            rw [hxq] at hcon
            exact ih h h (List.mem_cons_self h r) (tuple_gt_shift hcon hg)
          · exact ih h x (List.mem_cons_of_mem h hx'')

/-- C5 counterexample: with fallback rows (track 0: avg 80, 1 note) and
    (track 1: avg 60, 100 notes), both have avg_pitch >= 50 and track 1 has
    the strictly highest note count among them, yet the code picks track 0:
    the Python max key orders by adjusted average pitch first and uses note
    count only as a tie-break, not by highest note count. -/
theorem fallback_prefers_pitch_over_count :
    choose_fallback [(0, 80, 1), (1, 60, 100)] = 0 ∧
    50 ≤ ((1, (60:ℚ), 100) : ℕ × ℚ × ℕ).2.1 ∧
    (∀ x ∈ ([(0, 80, 1), (1, 60, 100)] : List (ℕ × ℚ × ℕ)),
      50 ≤ x.2.1 → x.2.2 ≤ 100) ∧
    (1, (60:ℚ), 100) ∈ ([(0, 80, 1), (1, 60, 100)] : List (ℕ × ℚ × ℕ)) ∧
    choose_fallback [(0, 80, 1), (1, 60, 100)] ≠ 1 := by
  have hcf : choose_fallback [(0, 80, 1), (1, 60, 100)] = 0 := by
    unfold choose_fallback py_max_run
    simp only [List.foldl_cons, List.foldl_nil]
    rw [if_neg]
    unfold tuple_gt fallback_key
    push_neg
    norm_num
  refine ⟨hcf, by norm_num, ?_, by simp, by rw [hcf]; norm_num⟩
  intro x hx _
  simp only [List.mem_cons, List.not_mem_nil, or_false] at hx
  rcases hx with rfl | rfl <;> norm_num

/-- C5 (amended): the mido fallback returns, among the rows with at least
    one note, the earliest row maximizing the key
    (avg_pitch if avg_pitch >= 50 else 0, note_count) in lexicographic
    order: if some row has avg_pitch >= 50 the chosen row does too (highest
    such avg_pitch, note count breaking ties); if none does, the chosen row
    has the maximal note count; with no rows at all the code falls back to
    track 0 (and the caller then finds no notes and returns None). -/
theorem fallback_selection_amended :
    (∀ (h : ℕ × ℚ × ℕ) (t : List (ℕ × ℚ × ℕ)),
      choose_fallback (h :: t) = (py_max_run h t).1 ∧
      py_max_run h t ∈ h :: t ∧
      (∀ x ∈ h :: t,
        ¬ tuple_gt (fallback_key x) (fallback_key (py_max_run h t))) ∧
      ((∃ x ∈ h :: t, 50 ≤ x.2.1) → 50 ≤ (py_max_run h t).2.1) ∧
      ((∀ x ∈ h :: t, x.2.1 < 50) →
        ∀ x ∈ h :: t, x.2.2 ≤ (py_max_run h t).2.2)) ∧
    choose_fallback [] = 0 := by
  refine ⟨?_, rfl⟩
  intro h t
  refine ⟨rfl, py_max_run_mem t h, py_max_run_not_gt t h, ?_, ?_⟩
  · rintro ⟨x, hx, h50⟩
    have hng := py_max_run_not_gt t h x hx
    unfold tuple_gt at hng
    push_neg at hng
    have h1 := hng.1
    unfold fallback_key at h1
    rw [if_pos h50] at h1
    by_cases hb : 50 ≤ (py_max_run h t).2.1
    · exact hb
    · rw [if_neg hb] at h1
      have h1' : x.2.1 ≤ 0 := by simpa using h1
      linarith
  · intro hall x hx
    have hng := py_max_run_not_gt t h x hx
    unfold tuple_gt at hng
    push_neg at hng
    have hxk : fallback_key x = (0, x.2.2) := by
      unfold fallback_key
      rw [if_neg (not_le.mpr (hall x hx))]
    have hbk : fallback_key (py_max_run h t) = (0, (py_max_run h t).2.2) := by
      unfold fallback_key
      rw [if_neg (not_le.mpr (hall _ (py_max_run_mem t h)))]
    rw [hxk, hbk] at hng
    exact hng.2 rfl

/-- C5 witness for the amended theorem at a concrete two-row input. -/
theorem fallback_selection_amended_witness :
    (choose_fallback [(2, (55:ℚ), 3), (3, 30, 9)] =
        (py_max_run (2, (55:ℚ), 3) [(3, 30, 9)]).1 ∧
      py_max_run (2, (55:ℚ), 3) [(3, 30, 9)] ∈
        [(2, (55:ℚ), 3), (3, 30, 9)] ∧
      (∀ x ∈ ([(2, (55:ℚ), 3), (3, 30, 9)] : List (ℕ × ℚ × ℕ)),
        ¬ tuple_gt (fallback_key x)
          (fallback_key (py_max_run (2, (55:ℚ), 3) [(3, 30, 9)]))) ∧
      ((∃ x ∈ ([(2, (55:ℚ), 3), (3, 30, 9)] : List (ℕ × ℚ × ℕ)),
          50 ≤ x.2.1) → 50 ≤ (py_max_run (2, (55:ℚ), 3) [(3, 30, 9)]).2.1) ∧
      ((∀ x ∈ ([(2, (55:ℚ), 3), (3, 30, 9)] : List (ℕ × ℚ × ℕ)),
          x.2.1 < 50) →
        ∀ x ∈ ([(2, (55:ℚ), 3), (3, 30, 9)] : List (ℕ × ℚ × ℕ)),
          x.2.2 ≤ (py_max_run (2, (55:ℚ), 3) [(3, 30, 9)]).2.2)) ∧
    50 ≤ (py_max_run (2, (55:ℚ), 3) [(3, 30, 9)]).2.1 :=
  ⟨fallback_selection_amended.1 (2, (55:ℚ), 3) [(3, 30, 9)],
   (fallback_selection_amended.1 (2, (55:ℚ), 3) [(3, 30, 9)]).2.2.2.1
     ⟨(2, (55:ℚ), 3), by simp, by norm_num⟩⟩

/-! ### TimelineBuilder (analyze_midi_file_pretty_midi, analyze_music.py) -/

/-- One timeline entry: time in seconds (rounded to 3 decimals) and an
    optional pitch in Hz (rounded to 2 decimals). -/
structure TimelineEntry where
  time : ℚ
  pitch : Option ℝ

/-- midi_note_to_frequency: 440 * 2^((note - 69) / 12). -/
noncomputable def midi_note_to_frequency (note : ℕ) : ℝ :=
  440 * (2:ℝ) ^ (((note : ℝ) - 69) / 12)

/-- Stable insertion used to model Python sorted(notes, key=start). -/
def insert_by_start (n : Note) : List Note → List Note
  | [] => [n]
  | m :: rest =>
      if n.start ≤ m.start then n :: m :: rest else m :: insert_by_start n rest

/-- Python sorted(notes, key=lambda x: x.start), a stable sort. -/
def sort_by_start (notes : List Note) : List Note :=
  notes.foldr insert_by_start []

/-- min(note.start for note in notes); only used on nonempty lists (the code
    returns None earlier when the track is empty). -/
def vocal_start_time (notes : List Note) : ℚ :=
  match notes.map Note.start with
  | [] => 0
  | s :: rest => rest.foldl min s

/-- The positive gaps between consecutive start-sorted notes. -/
def note_gaps : List Note → List ℚ
  | a :: b :: rest =>
      (if 0 < b.start - a.stop then [b.start - a.stop] else []) ++
        note_gaps (b :: rest)
  | _ => []

/-- avg_gap: mean of the positive gaps, or 0.5 when there are none. -/
def average_gap (sorted_notes : List Note) : ℚ :=
  if note_gaps sorted_notes = [] then 1/2
  else list_mean (note_gaps sorted_notes)

/-- instrumental_threshold = max(0.3, avg_gap * 1.5). -/
def instrumental_threshold (sorted_notes : List Note) : ℚ :=
  max (3/10) (average_gap sorted_notes * (3/2))

/-- The scan of analyze_music.py lines 326-331: walk the start-sorted notes,
    remembering the end of the last note (in sort order) that has already
    ended, and breaking at the first note that starts after t. -/
def scan_prev_next (t : ℚ) : List Note → Option ℚ → Option ℚ × Option ℚ
  | [], acc => (acc, none)
  | n :: rest, acc =>
      let acc2 := if n.stop ≤ t then some n.stop else acc
      if t < n.start then (acc2, some n.start)
      else scan_prev_next t rest acc2

/-- The pitch chosen for one timestamp of the pretty_midi timeline (lines
    303-364): before the vocal start, none; with active notes, the highest
    active pitch; otherwise gap-fill from the last-sorted ended note or the
    first upcoming note, unless either gap exceeds the threshold. -/
noncomputable def pitch_at_pm (notes sorted_notes : List Note)
    (vocal_start thr t : ℚ) : Option ℝ :=
  if t < vocal_start then none
  else
    let active := notes.filter (fun n => decide (n.start ≤ t) && decide (t < n.stop))
    if active.isEmpty then
      let pn := scan_prev_next t sorted_notes none
      let gap_prev_big := match pn.1 with
        | some pe => decide (thr < t - pe)
        | none => false
      let gap_next_big := match pn.2 with
        | some ns => decide (thr < ns - t)
        | none => false
      if gap_prev_big || gap_next_big then none
      else
        match pn.1 with
        | some _ =>
            (sorted_notes.reverse.find? (fun n => decide (n.stop ≤ t))).map
              (fun n => midi_note_to_frequency n.pitch)
        | none =>
            match pn.2 with
            | some _ =>
                (sorted_notes.find? (fun n => decide (t < n.start))).map
                  (fun n => midi_note_to_frequency n.pitch)
            | none => none
    else some (midi_note_to_frequency ((active.map Note.pitch).foldl max 0))

/-- The per-entry pitch write-out: round(pitch, 2) if pitch else None. -/
noncomputable def round_entry_pitch (p : Option ℝ) : Option ℝ :=
  match p with
  | none => none
  | some v => if v = 0 then none else some (pyRound2R v)

/-- The timeline loop (lines 297-371): while current_time <= total_time,
    append an entry and advance by the resolution. -/
noncomputable def build_timeline (pitch_at : ℚ → Option ℝ) (res total : ℚ)
    (hres : 0 < res) (cur : ℚ) : List TimelineEntry :=
  if h : cur ≤ total then
    ⟨pyRound3 cur, round_entry_pitch (pitch_at cur)⟩ ::
      build_timeline pitch_at res total hres (cur + res)
  else []
  termination_by (⌊(total - cur) / res⌋ + 1).toNat
  decreasing_by
    have hr : res ≠ 0 := ne_of_gt hres
    have he : (total - (cur + res)) / res = (total - cur) / res - 1 := by
      field_simp
      ring
    have hnn : (0:ℚ) ≤ (total - cur) / res := div_nonneg (by linarith) (le_of_lt hres)
    have hfl : (0:ℤ) ≤ ⌊(total - cur) / res⌋ := Int.floor_nonneg.mpr hnn
    rw [he, Int.floor_sub_one]
    omega

/-- analyze_midi_file_pretty_midi, reduced to its timeline construction:
    the track's notes (after selection), the resolution, and the MIDI end
    time are inputs; an empty track returns None. -/
noncomputable def analyze_midi_file_pretty_midi (notes : List Note)
    (time_resolution total_time : ℚ) (hres : 0 < time_resolution) :
    Option (List TimelineEntry) :=
  if notes.isEmpty then none
  else
    some (build_timeline
      (pitch_at_pm notes (sort_by_start notes) (vocal_start_time notes)
        (instrumental_threshold (sort_by_start notes)))
      time_resolution total_time hres 0)

lemma pyRoundQ_mem (q : ℚ) : pyRoundQ q = ⌊q⌋ ∨ pyRoundQ q = ⌊q⌋ + 1 := by
  unfold pyRoundQ
  split_ifs <;> simp

lemma pyRoundQ_up_half {q : ℚ} (h : pyRoundQ q = ⌊q⌋ + 1) : 1/2 ≤ q - ⌊q⌋ := by
  unfold pyRoundQ at h
  split_ifs at h with h2 h3 h4 <;> first | omega | linarith

lemma pyRoundQ_le_add_half (q : ℚ) : (pyRoundQ q : ℚ) ≤ q + 1/2 := by
  have hfl := Int.floor_le q
  rcases pyRoundQ_mem q with h | h
  · rw [h]
    linarith
  · have := pyRoundQ_up_half h
    rw [h]
    push_cast
    linarith

lemma pyRound3_zero : pyRound3 0 = 0 := by
  norm_num [pyRound3, pyRoundQ]

lemma pyRound3_le (q : ℚ) : pyRound3 q ≤ q + 1/2000 := by
  unfold pyRound3
  have := pyRoundQ_le_add_half (q * 1000)
  rw [div_le_iff (by norm_num : (0:ℚ) < 1000)]
  linarith

lemma build_timeline_closed (pitch_at : ℚ → Option ℝ) (res total : ℚ)
    (hres : 0 < res) :
    ∀ (n : ℕ) (cur : ℚ), cur ≤ total → (⌊(total - cur) / res⌋).toNat = n →
      build_timeline pitch_at res total hres cur =
        (List.range (n + 1)).map (fun i =>
          ⟨pyRound3 (cur + i * res),
            round_entry_pitch (pitch_at (cur + i * res))⟩) := by
  intro n
  induction n with
  | zero =>
      intro cur hc hn
      have hstop : ¬ (cur + res ≤ total) := by
        intro hcon
        have hge : (1:ℚ) ≤ (total - cur) / res := by
          rw [le_div_iff hres]
          linarith
        have h1 : (1:ℤ) ≤ ⌊(total - cur) / res⌋ := by
          exact_mod_cast Int.le_floor.mpr (by exact_mod_cast hge)
        omega
      rw [build_timeline, dif_pos hc, build_timeline, dif_neg hstop]
      have h01 : List.range 1 = [0] := rfl
      rw [h01]
      simp only [List.map_cons, List.map_nil]
      norm_num
  | succ m ih =>
      intro cur hc hn
      have hnn : (0:ℚ) ≤ (total - cur) / res :=
        div_nonneg (by linarith) (le_of_lt hres)
      have hfl0 : (0:ℤ) ≤ ⌊(total - cur) / res⌋ := Int.floor_nonneg.mpr hnn
      have hstep : cur + res ≤ total := by
        have h1 : (1:ℤ) ≤ ⌊(total - cur) / res⌋ := by omega
        have h2 : (1:ℚ) ≤ (total - cur) / res := by
          have := Int.le_floor.mp h1
          exact_mod_cast this
        rw [le_div_iff hres] at h2
        linarith
      have hfl : (⌊(total - (cur + res)) / res⌋).toNat = m := by
        have he : (total - (cur + res)) / res = (total - cur) / res - 1 := by
          field_simp
          ring
        rw [he, Int.floor_sub_one]
        omega
      rw [build_timeline, dif_pos hc, ih (cur + res) hstep hfl]
      conv_rhs => rw [List.range_succ_eq_map]
      simp only [List.map_cons, List.map_map]
      congr 1
      · norm_num
      · apply List.map_congr_left
        intro i _
        simp only [Function.comp, Nat.succ_eq_add_one]
        have harg : cur + res + (i : ℚ) * res = cur + (((i : ℕ) + 1 : ℕ) : ℚ) * res := by
          push_cast
          ring
        rw [harg]

/-- C3 (amended): the pretty_midi timeline has floor(duration/r) + 1
    entries; the first recorded time is exactly 0; the i-th recorded time
    is round(i * r, 3) (Python rounding); the UNROUNDED last timestamp
    floor(duration/r) * r never exceeds the duration, and every recorded
    time exceeds the duration by at most 1/2000 s. The recorded last time
    itself can round above the duration for sub-millisecond resolutions
    (see the counterexample), which is the only part of the original claim
    that fails. -/
theorem timeline_shape_amended :
    ∀ (notes : List Note) (res total : ℚ) (hres : 0 < res),
      0 ≤ total → notes ≠ [] →
      ∀ tl, analyze_midi_file_pretty_midi notes res total hres = some tl →
        tl.length = (⌊total / res⌋).toNat + 1 ∧
        tl.map TimelineEntry.time =
          (List.range ((⌊total / res⌋).toNat + 1)).map
            (fun i : ℕ => pyRound3 ((i : ℚ) * res)) ∧
        (tl.head?.map TimelineEntry.time) = some 0 ∧
        ((⌊total / res⌋ : ℚ) * res ≤ total) ∧
        (∀ e ∈ tl, e.time ≤ total + 1/2000) := by
  intro notes res total hres htot hne tl htl
  have hnotes : ¬ notes.isEmpty := by
    simpa [List.isEmpty_iff] using hne
  unfold analyze_midi_file_pretty_midi at htl
  rw [if_neg hnotes] at htl
  have htl' := Option.some.inj htl
  have hclosed := build_timeline_closed
    (pitch_at_pm notes (sort_by_start notes) (vocal_start_time notes)
      (instrumental_threshold (sort_by_start notes)))
    res total hres ((⌊total / res⌋).toNat) 0 htot (by norm_num)
  rw [hclosed] at htl'
  subst htl'
  set n := (⌊total / res⌋).toNat with hn
  have hfl0 : (0:ℤ) ≤ ⌊total / res⌋ :=
    Int.floor_nonneg.mpr (div_nonneg htot (le_of_lt hres))
  have hnq : ((n : ℤ) : ℚ) = ((⌊total / res⌋ : ℤ) : ℚ) := by
    rw [hn]
    congr 1
    omega
  have hbound : ((⌊total / res⌋ : ℤ) : ℚ) * res ≤ total := by
    have h1 : ((⌊total / res⌋ : ℤ) : ℚ) ≤ total / res := Int.floor_le _
    calc ((⌊total / res⌋ : ℤ) : ℚ) * res ≤ (total / res) * res :=
          mul_le_mul_of_nonneg_right h1 (le_of_lt hres)
      _ = total := by field_simp
  refine ⟨by simp, ?_, ?_, hbound, ?_⟩
  · rw [List.map_map]
    apply List.map_congr_left
    intro i _
    simp only [Function.comp]
    norm_num
  · have hr : List.range (n + 1) = 0 :: (List.range n).map Nat.succ :=
      List.range_succ_eq_map n
    rw [hr]
    simp only [List.map_cons, List.head?_cons, Option.map_some]
    norm_num [pyRound3_zero]
  · intro e he
    rcases List.mem_map.mp he with ⟨i, hi, rfl⟩
    have hin : i < n + 1 := List.mem_range.mp hi
    have hle : (i : ℚ) * res ≤ ((⌊total / res⌋ : ℤ) : ℚ) * res := by
      apply mul_le_mul_of_nonneg_right _ (le_of_lt hres)
      rw [← hnq]
      exact_mod_cast Nat.lt_succ_iff.mp hin
    have := pyRound3_le ((0 : ℚ) + (i : ℚ) * res)
    simp only
    linarith [hbound]

/-- C3 counterexample: with resolution 0.0009 s and duration 0.0009 s the
    timeline's recorded times are [0, 0.001]; the last recorded time 0.001
    exceeds the duration 0.0009 because times are stored as
    round(current_time, 3). -/
theorem timeline_time_rounds_past_duration :
    (analyze_midi_file_pretty_midi [⟨0, 9/10000, 60⟩] (9/10000) (9/10000)
        (by norm_num)).map (fun tl => tl.map TimelineEntry.time) =
      some [0, 1/1000] ∧
    ¬ ((1/1000 : ℚ) ≤ 9/10000) := by
  constructor
  · unfold analyze_midi_file_pretty_midi
    rw [if_neg (by norm_num)]
    have hclosed := build_timeline_closed
      (pitch_at_pm [⟨0, 9/10000, 60⟩] (sort_by_start [⟨0, 9/10000, 60⟩])
        (vocal_start_time [⟨0, 9/10000, 60⟩])
        (instrumental_threshold (sort_by_start [⟨0, 9/10000, 60⟩])))
      (9/10000) (9/10000) (by norm_num) 1 0 (by norm_num)
      (by norm_num)
    rw [hclosed]
    have hr2 : List.range 2 = [0, 1] := rfl
    rw [show (1 + 1) = 2 from rfl, hr2]
    simp only [List.map_cons, List.map_nil, Option.map_some]
    have t1 : pyRound3 (9/10000) = 1/1000 := by
      unfold pyRound3 pyRoundQ
      rw [show ((9:ℚ)/10000 * 1000) = 9/10 by norm_num]
      rw [show ⌊(9:ℚ)/10⌋ = 0 by
        rw [Int.floor_eq_iff] <;> norm_num]
      norm_num
    norm_num [pyRound3_zero, t1]
  · norm_num

/-- The concrete timeline used by the C3 witness: one note, resolution
    0.05 s, duration 0.1 s. -/
noncomputable def c3_witness_timeline : List TimelineEntry :=
  build_timeline
    (pitch_at_pm [⟨0, 1, 60⟩] (sort_by_start [⟨0, 1, 60⟩])
      (vocal_start_time [⟨0, 1, 60⟩])
      (instrumental_threshold (sort_by_start [⟨0, 1, 60⟩])))
    (1/20) (1/10) (by norm_num) 0

/-- C3 witness: the amended shape facts at a concrete one-note track. -/
theorem timeline_shape_amended_witness :
    c3_witness_timeline.length = 3 ∧
    c3_witness_timeline.head?.map TimelineEntry.time = some 0 ∧
    (∀ e ∈ c3_witness_timeline, e.time ≤ 1/10 + 1/2000) := by
  have h := timeline_shape_amended [⟨0, 1, 60⟩] (1/20) (1/10) (by norm_num)
    (by norm_num) (by simp) c3_witness_timeline
    (by unfold analyze_midi_file_pretty_midi c3_witness_timeline
        rw [if_neg (by simp)])
  have hfl : (⌊(1/10 : ℚ) / (1/20)⌋) = 2 := by
    rw [show (1/10 : ℚ) / (1/20) = 2 by norm_num]
    rw [Int.floor_eq_iff] <;> norm_num
  exact ⟨by rw [h.1, hfl]; rfl, h.2.2.1, h.2.2.2.2⟩

lemma reverse_find_eq_filter_getLast (p : Note → Bool) :
    ∀ l : List Note, l.reverse.find? p = (l.filter p).getLast? := by
  intro l
  induction l with
  | nil => rfl
  | cons a t ih =>
      rw [List.reverse_cons, List.find?_append, ih, List.filter_cons]
      rcases hft : t.filter p with _ | ⟨b, r⟩
      · simp only [List.getLast?_nil, Option.none_or]
        split_ifs with hp
        · simp [List.find?, hp]
        · simp [List.find?, hp]
      · have hx : ∃ x, (b :: r).getLast? = some x := by
          cases hgl : (b :: r).getLast? with
          | none =>
              exfalso
              have := List.getLast?_eq_none_iff.mp hgl
              simp at this
          | some x => exact ⟨x, rfl⟩
        rcases hx with ⟨x, hx⟩
        split_ifs with hp
        · rw [List.getLast?_cons_cons, hx]
          rfl
        · rw [hx]
          rfl

lemma scan_prev_next_general (t : ℚ) :
    ∀ (l : List Note) (acc : Option ℚ),
      l.Pairwise (fun a b => a.start ≤ b.start) →
      (∀ n ∈ l, n.start ≤ n.stop) →
      scan_prev_next t l acc =
        ((match (l.filter (fun n => decide (n.stop ≤ t))).getLast? with
          | some m => some m.stop
          | none => acc),
         (l.find? (fun n => decide (t < n.start))).map Note.start) := by
  intro l
  induction l with
  | nil => intro acc _ _; rfl
  | cons n rest ih =>
      intro acc hsort hwf
      have hsort' := (List.pairwise_cons.mp hsort).2
      have hstarts := (List.pairwise_cons.mp hsort).1
      have hwfn : n.start ≤ n.stop := hwf n (List.mem_cons_self n rest)
      have hwf' : ∀ m ∈ rest, m.start ≤ m.stop :=
        fun m hm => hwf m (List.mem_cons_of_mem n hm)
      show (let acc2 := if n.stop ≤ t then some n.stop else acc;
        if t < n.start then (acc2, some n.start)
        else scan_prev_next t rest acc2) = _
      by_cases hts : t < n.start
      · -- break immediately: all of n :: rest starts (hence ends) after t
        have hnstop : ¬ (n.stop ≤ t) := by
          intro hcon
          linarith
        have hfilter : (n :: rest).filter (fun n => decide (n.stop ≤ t)) = [] := by
          rw [List.filter_eq_nil]
          intro m hm
          rcases List.mem_cons.mp hm with rfl | hm'
          · simpa using hnstop
          · have h1 := hstarts m hm'
            have h2 := hwf' m hm'
            simp only [decide_eq_true_eq]
            intro hcon
            linarith
        have hfind : (n :: rest).find? (fun n => decide (t < n.start)) = some n := by
          rw [List.find?_cons_of_pos]
          simpa using hts
        rw [hfilter, hfind]
        simp only [List.getLast?_nil]
        rw [if_neg hnstop]
        simp [hts]
      · -- continue scanning
        have hfind : (n :: rest).find? (fun n => decide (t < n.start)) =
            rest.find? (fun n => decide (t < n.start)) := by
          rw [List.find?_cons_of_neg]
          simpa using hts
        simp only [if_neg hts]
        rw [ih (if n.stop ≤ t then some n.stop else acc) hsort' hwf', hfind]
        by_cases hns : n.stop ≤ t
        · rw [if_pos hns]
          rw [List.filter_cons, if_pos (by simpa using hns)]
          rcases hfr : rest.filter (fun n => decide (n.stop ≤ t)) with _ | ⟨b, r⟩
          · rw [hfr]
            simp
          · rw [hfr, List.getLast?_cons_cons]
            have hx : ∃ x, (b :: r).getLast? = some x := by
              cases hgl : (b :: r).getLast? with
              | none =>
                  exfalso
                  have := List.getLast?_eq_none_iff.mp hgl
                  simp at this
              | some x => exact ⟨x, rfl⟩
            rcases hx with ⟨x, hx⟩
            rw [hx]
        · rw [if_neg hns]
          rw [List.filter_cons, if_neg (by simpa using hns)]

lemma pitch_at_pm_gap (notes sorted_notes : List Note) (vs thr t : ℚ)
    (hsort : sorted_notes.Pairwise (fun a b => a.start ≤ b.start))
    (hwf : ∀ n ∈ sorted_notes, n.start ≤ n.stop)
    (hvs : vs ≤ t)
    (hactive : notes.filter
      (fun n => decide (n.start ≤ t) && decide (t < n.stop)) = []) :
    pitch_at_pm notes sorted_notes vs thr t =
      (match (sorted_notes.filter (fun n => decide (n.stop ≤ t))).getLast?,
          sorted_notes.find? (fun n => decide (t < n.start)) with
      | some pn, some nn =>
          if thr < t - pn.stop ∨ thr < nn.start - t then none
          else some (midi_note_to_frequency pn.pitch)
      | some pn, none =>
          if thr < t - pn.stop then none
          else some (midi_note_to_frequency pn.pitch)
      | none, some nn =>
          if thr < nn.start - t then none
          else some (midi_note_to_frequency nn.pitch)
      | none, none => none) := by
  simp only [pitch_at_pm, if_neg (not_lt.mpr hvs), hactive, List.isEmpty_nil,
    if_true]
  rw [scan_prev_next_general t sorted_notes none hsort hwf]
  simp only [reverse_find_eq_filter_getLast]
  rcases hL : (sorted_notes.filter (fun n => decide (n.stop ≤ t))).getLast?
    with _ | pn <;>
    rcases hF : sorted_notes.find? (fun n => decide (t < n.start))
      with _ | nn <;>
    simp only [hL, hF, Option.map_some, Option.map_none] <;>
    simp [Bool.or_eq_true, decide_eq_true_eq]

lemma two_rpow_34_bounds :
    (1681792/1000000 : ℝ) < (2:ℝ) ^ ((3:ℝ)/4) ∧
      (2:ℝ) ^ ((3:ℝ)/4) < 1681793/1000000 := by
  have hu_pos : (0:ℝ) < (2:ℝ) ^ ((3:ℝ)/4) :=
    Real.rpow_pos_of_pos (by norm_num) _
  have hu4 : ((2:ℝ) ^ ((3:ℝ)/4)) ^ (4:ℕ) = 8 := by
    rw [← Real.rpow_natCast ((2:ℝ) ^ ((3:ℝ)/4)) 4,
      ← Real.rpow_mul (by norm_num : (0:ℝ) ≤ 2)]
    rw [show ((3:ℝ)/4 * (4:ℕ) : ℝ) = ((3:ℕ):ℝ) by push_cast; ring]
    rw [Real.rpow_natCast]
    norm_num
  constructor
  · apply lt_of_pow_lt_pow_left 4 (le_of_lt hu_pos)
    rw [hu4]
    norm_num
  · apply lt_of_pow_lt_pow_left 4 (by norm_num)
    rw [hu4]
    norm_num

lemma freq60_eq : midi_note_to_frequency 60 = 440 * ((2:ℝ) ^ ((3:ℝ)/4))⁻¹ := by
  unfold midi_note_to_frequency
  rw [show (((60:ℕ):ℝ) - 69) / 12 = -((3:ℝ)/4) by norm_num,
    Real.rpow_neg (by norm_num : (0:ℝ) ≤ 2)]

lemma freq60_pos : 0 < midi_note_to_frequency 60 := by
  rw [freq60_eq]
  have := Real.rpow_pos_of_pos (show (0:ℝ) < 2 by norm_num) ((3:ℝ)/4)
  positivity

lemma freq60_scaled_bounds :
    (52325/2 : ℝ) < midi_note_to_frequency 60 * 100 ∧
      midi_note_to_frequency 60 * 100 < 26163 := by
  obtain ⟨ha, hb⟩ := two_rpow_34_bounds
  have hu_pos : (0:ℝ) < (2:ℝ) ^ ((3:ℝ)/4) :=
    Real.rpow_pos_of_pos (by norm_num) _
  rw [freq60_eq]
  rw [show (440:ℝ) * ((2:ℝ) ^ ((3:ℝ)/4))⁻¹ * 100
    = 44000 / ((2:ℝ) ^ ((3:ℝ)/4)) by field_simp; norm_num]
  constructor
  · rw [lt_div_iff hu_pos]
    nlinarith
  · rw [div_lt_iff hu_pos]
    nlinarith

lemma freq60_round : pyRound2R (midi_note_to_frequency 60) = 26163/100 := by
  obtain ⟨h1, h2⟩ := freq60_scaled_bounds
  have hfl : ⌊midi_note_to_frequency 60 * 100⌋ = 26162 := by
    rw [Int.floor_eq_iff]
    constructor
    · push_cast
      linarith
    · push_cast
      linarith
  unfold pyRound2R pyRoundR
  rw [hfl]
  rw [if_neg (by push_cast; linarith), if_pos (by push_cast; linarith)]
  norm_num

lemma sort_notes6 :
    sort_by_start [⟨0, 1, 60⟩, ⟨6/5, 2, 64⟩] = [⟨0, 1, 60⟩, ⟨6/5, 2, 64⟩] := by
  norm_num [sort_by_start, insert_by_start]

lemma vs_notes6 : vocal_start_time [⟨0, 1, 60⟩, ⟨6/5, 2, 64⟩] = 0 := by
  norm_num [vocal_start_time]

lemma thr_notes6 :
    instrumental_threshold [⟨0, 1, 60⟩, ⟨6/5, 2, 64⟩] = 3/10 := by
  norm_num [instrumental_threshold, average_gap, note_gaps, list_mean]

lemma pitch_notes6_at_gap :
    pitch_at_pm [⟨0, 1, 60⟩, ⟨6/5, 2, 64⟩] [⟨0, 1, 60⟩, ⟨6/5, 2, 64⟩]
      0 (3/10) (11/10) = some (midi_note_to_frequency 60) := by
  norm_num [pitch_at_pm, scan_prev_next, List.filter, List.find?]

lemma pyRound3_eleven_tenths : pyRound3 (11/10) = 11/10 := by
  unfold pyRound3 pyRoundQ
  rw [show ((11:ℚ)/10 * 1000) = 1100 by norm_num]
  rw [show ⌊(1100:ℚ)⌋ = 1100 by rw [Int.floor_eq_iff] <;> norm_num]
  norm_num

lemma notes6_entry_22 :
    (analyze_midi_file_pretty_midi [⟨0, 1, 60⟩, ⟨6/5, 2, 64⟩] (1/20) 2
        (by norm_num)).map (fun tl => tl[22]?) =
      some (some ⟨11/10, some (26163/100)⟩) := by
  unfold analyze_midi_file_pretty_midi
  rw [if_neg (by norm_num)]
  have hclosed := build_timeline_closed
    (pitch_at_pm [⟨0, 1, 60⟩, ⟨6/5, 2, 64⟩]
      (sort_by_start [⟨0, 1, 60⟩, ⟨6/5, 2, 64⟩])
      (vocal_start_time [⟨0, 1, 60⟩, ⟨6/5, 2, 64⟩])
      (instrumental_threshold (sort_by_start [⟨0, 1, 60⟩, ⟨6/5, 2, 64⟩])))
    (1/20) 2 (by norm_num) 40 0 (by norm_num)
    (by
      rw [show ((2:ℚ) - 0) / (1/20) = 40 by norm_num]
      rw [show ⌊(40:ℚ)⌋ = 40 by rw [Int.floor_eq_iff] <;> norm_num]
      rfl)
  rw [hclosed]
  rw [Option.map_some']
  rw [List.getElem?_map]
  rw [show (List.range (40 + 1))[22]? = some 22 from by
    rw [List.getElem?_range] <;> norm_num]
  simp only [Option.map_some']
  rw [show (0:ℚ) + ((22:ℕ):ℚ) * (1/20) = 11/10 by norm_num]
  rw [sort_notes6, vs_notes6, thr_notes6, pitch_notes6_at_gap]
  simp only [round_entry_pitch]
  rw [if_neg (ne_of_gt freq60_pos), freq60_round, pyRound3_eleven_tenths]

/-- C6 counterexample: track with overlapping notes (0,3,pitch 70) and
    (1,2,pitch 60), threshold 3/4, queried at t = 3 (an on-grid timestamp
    with no active note). The nearest preceding note end is 3 (every note
    end is <= 3 and 3 is one of them), so its gap to t is 0 <= 3/4, and no
    note follows t; the claim therefore requires the entry to carry the
    preceding note's pitch. The code instead remembers the end of the
    last-STARTING already-ended note (end 2 of the later-starting note),
    measures the gap 3 - 2 = 1 > 3/4, and emits none. -/
theorem gap_fill_ignores_nearest_end :
    pitch_at_pm [⟨0, 3, 70⟩, ⟨1, 2, 60⟩] [⟨0, 3, 70⟩, ⟨1, 2, 60⟩] 0
        (instrumental_threshold [⟨0, 3, 70⟩, ⟨1, 2, 60⟩]) 3 = none ∧
    instrumental_threshold [⟨0, 3, 70⟩, ⟨1, 2, 60⟩] = 3/4 ∧
    ((3:ℚ) ∈ ([⟨0, 3, 70⟩, ⟨1, 2, 60⟩] : List Note).map Note.stop ∧
      ∀ s ∈ ([⟨0, 3, 70⟩, ⟨1, 2, 60⟩] : List Note).map Note.stop, s ≤ 3) ∧
    (3:ℚ) - 3 ≤ 3/4 ∧
    ([⟨0, 3, 70⟩, ⟨1, 2, 60⟩] : List Note).find?
      (fun n => decide ((3:ℚ) < n.start)) = none := by
  have hthr : instrumental_threshold [⟨0, 3, 70⟩, ⟨1, 2, 60⟩] = 3/4 := by
    norm_num [instrumental_threshold, average_gap, note_gaps]
  refine ⟨?_, hthr, ⟨by norm_num, ?_⟩, by norm_num, ?_⟩
  · rw [hthr]
    norm_num [pitch_at_pm, scan_prev_next, List.filter, List.find?]
  · intro s hs
    simp only [List.map_cons, List.map_nil, List.mem_cons,
      List.not_mem_nil, or_false] at hs
    rcases hs with rfl | rfl <;> norm_num
  · norm_num [List.find?]

/-- C6 (amended): at a timestamp t at or after the vocal start with no
    active note, the entry's pitch is decided by the LAST note in start
    order whose end is at or before t (not the nearest-ending note: these
    differ when notes overlap) and by the first note starting after t: if
    the gap from that last-sorted ended note to t, or from t to the next
    start, exceeds the threshold the entry is none, otherwise it carries
    that ended note's pitch if one exists, else the upcoming note's pitch,
    else none. For the claim's concrete non-overlapping scenario the
    original numbers do hold: threshold 0.3, and the entry at t = 1.1
    carries MIDI note 60 rounded to 261.63 Hz. -/
theorem gap_fill_amended :
    (∀ (notes sorted_notes : List Note) (vs thr t : ℚ),
        sorted_notes.Pairwise (fun a b => a.start ≤ b.start) →
        (∀ n ∈ sorted_notes, n.start ≤ n.stop) →
        vs ≤ t →
        notes.filter
          (fun n => decide (n.start ≤ t) && decide (t < n.stop)) = [] →
        pitch_at_pm notes sorted_notes vs thr t =
          (match (sorted_notes.filter
              (fun n => decide (n.stop ≤ t))).getLast?,
              sorted_notes.find? (fun n => decide (t < n.start)) with
          | some pn, some nn =>
              if thr < t - pn.stop ∨ thr < nn.start - t then none
              else some (midi_note_to_frequency pn.pitch)
          | some pn, none =>
              if thr < t - pn.stop then none
              else some (midi_note_to_frequency pn.pitch)
          | none, some nn =>
              if thr < nn.start - t then none
              else some (midi_note_to_frequency nn.pitch)
          | none, none => none)) ∧
    instrumental_threshold [⟨0, 1, 60⟩, ⟨6/5, 2, 64⟩] = 3/10 ∧
    pitch_at_pm [⟨0, 1, 60⟩, ⟨6/5, 2, 64⟩] [⟨0, 1, 60⟩, ⟨6/5, 2, 64⟩]
      0 (3/10) (11/10) = some (midi_note_to_frequency 60) ∧
    (analyze_midi_file_pretty_midi [⟨0, 1, 60⟩, ⟨6/5, 2, 64⟩] (1/20) 2
        (by norm_num)).map (fun tl => tl[22]?) =
      some (some ⟨11/10, some (26163/100)⟩) :=
  ⟨fun notes sorted_notes vs thr t hs hw hv ha =>
      pitch_at_pm_gap notes sorted_notes vs thr t hs hw hv ha,
    thr_notes6, pitch_notes6_at_gap, notes6_entry_22⟩

/-- C6 witness: the amended gap-fill rule applied at a concrete one-note
    track and timestamp. -/
theorem gap_fill_amended_witness :
    pitch_at_pm [⟨0, 1, 60⟩] [⟨0, 1, 60⟩] 0 (1/2) (3/2) =
      (match (([⟨0, 1, 60⟩] : List Note).filter
          (fun n => decide (n.stop ≤ (3/2 : ℚ)))).getLast?,
          ([⟨0, 1, 60⟩] : List Note).find?
            (fun n => decide ((3/2 : ℚ) < n.start)) with
      | some pn, some nn =>
          if (1/2 : ℚ) < 3/2 - pn.stop ∨ (1/2 : ℚ) < nn.start - 3/2 then none
          else some (midi_note_to_frequency pn.pitch)
      | some pn, none =>
          if (1/2 : ℚ) < 3/2 - pn.stop then none
          else some (midi_note_to_frequency pn.pitch)
      | none, some nn =>
          if (1/2 : ℚ) < nn.start - 3/2 then none
          else some (midi_note_to_frequency nn.pitch)
      | none, none => none) :=
  gap_fill_amended.1 [⟨0, 1, 60⟩] [⟨0, 1, 60⟩] 0 (1/2) (3/2)
    (by simp) (by intro n hn; simp at hn; subst hn; norm_num)
    (by norm_num) (by norm_num [List.filter])
